import Mathlib

/-!
Verification of the `use`/`unuse` activation-ledger system.

The deactivation reconciler is embedded from `src/unuse.py` (the env-var
ledger variant: the `USE_BRANCHES` list plus per-branch `USE_<B>_*`
records, designated by the spec as the authoritative variant), the
activation planner from `src/use.py`, and the `used` listing from
`src/used.py`.  Serialized Python dict literals stored in environment
variables are embedded at the parsed level as association lists, which
preserves iteration order (Python dict order = insertion order).
-/

/-- Abstract shell directive, as produced by the reconciler/planner through
the shell-object emitter (`format_alias`, `unalias`, `format_env`,
`unset_env_var`, `format_path_var`, raw command strings). -/
inductive Directive where
  | setAlias (name value : String)
  | unalias (name : String)
  | setEnvVar (name value : String)
  | unsetEnvVar (name : String)
  | setPathVar (name : String) (values : List String)
  | runCmd (cmd : String)
  deriving DecidableEq, Repr

/-- The entity (alias name, variable name) a directive acts on; `none` for a
raw command. -/
def directive_target : Directive → Option String
  | .setAlias n _ => some n
  | .unalias n => some n
  | .setEnvVar n _ => some n
  | .unsetEnvVar n => some n
  | .setPathVar n _ => some n
  | .runCmd _ => none

/-- First-match lookup in an association list (Python dict access `d[k]` /
`d.get(k)`; dicts have unique keys, so first match is the match). -/
def alookup {α : Type} (k : String) : List (String × α) → Option α
  | [] => none
  | (k', v) :: rest => if k' = k then some v else alookup k rest

/-- One comma-separated entry of the `USE_BRANCHES` environment variable:
`branch,package_name,package_path`. -/
structure UseBranchEntry where
  branch : String
  name : String
  path : String
  deriving DecidableEq, Repr

/-- The per-branch record stored in the `USE_<BRANCH>_*` environment
variables of `src/unuse.py` (each holds a serialized dict; embedded here
already parsed).  A branch with no record corresponds to the getenv
defaults `"{}"`, i.e. all fields empty. -/
structure BranchData where
  newAliases : List (String × String) := []
  newEnvVars : List (String × String) := []
  newPathPrepends : List (String × List String) := []
  newPathPostpends : List (String × List String) := []
  originalAliases : List (String × String) := []
  originalEnvVars : List (String × String) := []
  originalPathVars : List (String × List String) := []
  unuseShellCmds : List String := []
  deriving Repr

/-- The environment visible to `src/unuse.py`: the parsed `USE_BRANCHES`
ledger, the per-branch records, and the live environment-variable table. -/
structure UnuseEnv where
  useBranches : List UseBranchEntry
  branchData : String → BranchData
  envVars : List (String × String)

/-- Embeds `merge_dict_of_lists` from `src/unuse.py` (deduplicate=False):
keys of `a` first, values concatenated when the key is in both, then the
keys of `b` not in `a`. -/
def merge_dict_of_lists (a b : List (String × List String)) :
    List (String × List String) :=
  a.map (fun kv => (kv.1, kv.2 ++ ((alookup kv.1 b).getD []))) ++
    b.filter (fun kv => (alookup kv.1 a).isNone)

/-- Embeds `merge_dict_of_lists` applied to dicts with string values (as
`unuse_aliases`/`unuse_env_vars` do): Python `+` concatenates the strings.
Only the key set of the result is ever consumed. -/
def merge_dict_of_strs (a b : List (String × String)) :
    List (String × String) :=
  a.map (fun kv => (kv.1, kv.2 ++ ((alookup kv.1 b).getD ""))) ++
    b.filter (fun kv => (alookup kv.1 a).isNone)

/-- Embeds `get_subsequent_use_packages` from `src/unuse.py`: walk the
`USE_BRANCHES` entries with a `store` flag that flips just after the entry
whose branch field matches; collect every entry after that point. -/
def get_subsequent_use_packages (branch : String) :
    List UseBranchEntry → List UseBranchEntry
  | [] => []
  | e :: rest =>
    if e.branch = branch then rest
    else get_subsequent_use_packages branch rest

/-- The merged `NEW_ALIASES` dicts of all branches subsequent to `branch`
(the `subsequent_aliases` accumulation loop in `unuse_aliases`). -/
def subsequent_aliases (e : UnuseEnv) (branch : String) :
    List (String × String) :=
  (get_subsequent_use_packages branch e.useBranches).foldl
    (fun acc sb => merge_dict_of_strs acc (e.branchData sb.branch).newAliases) []

/-- The merged `NEW_ENV_VARS` dicts of all branches subsequent to `branch`
(the `subsequent_vars` accumulation loop in `unuse_env_vars`). -/
def subsequent_env_vars (e : UnuseEnv) (branch : String) :
    List (String × String) :=
  (get_subsequent_use_packages branch e.useBranches).foldl
    (fun acc sb => merge_dict_of_strs acc (e.branchData sb.branch).newEnvVars) []

/-- The merged `NEW_PATH_PREPENDS`/`NEW_PATH_POSTPENDS` dicts of all
branches subsequent to `branch` (the `subsequent_paths` accumulation loop
in `unuse_paths`). -/
def subsequent_paths (e : UnuseEnv) (branch : String) :
    List (String × List String) :=
  (get_subsequent_use_packages branch e.useBranches).foldl
    (fun acc sb =>
      merge_dict_of_lists
        (merge_dict_of_lists acc (e.branchData sb.branch).newPathPrepends)
        (e.branchData sb.branch).newPathPostpends) []

/-- Splits a character list at every occurrence of the separator `c`,
keeping empty pieces (the semantics of Python `str.split(sep)` for a
one-character separator). -/
def splitChar (c : Char) : List Char → List (List Char)
  | [] => [[]]
  | x :: xs =>
    match splitChar c xs with
    | [] => [[]]
    | g :: gs => if x = c then [] :: g :: gs else (x :: g) :: gs

/-- Python `s.split(":")`, as used on path-variable values throughout
`src/unuse.py` and `src/use.py`. -/
def split_on_colon (s : String) : List String :=
  (splitChar ':' s.data).map (fun l => String.mk l)

/-- Splitting always yields at least one piece (Python `"".split(":")` is
`[""]`), so the dead re-check `if not current_path_var_values` after the
split in `remove_paths_from_path_var` never fires. -/
theorem splitChar_ne_nil (c : Char) (cs : List Char) : splitChar c cs ≠ [] := by
  cases cs with
  | nil => simp [splitChar]
  | cons x xs =>
    simp only [splitChar]
    split
    · simp
    · split <;> simp

/-- The string-level version of `splitChar_ne_nil`. -/
theorem split_on_colon_ne_nil (s : String) : split_on_colon s ≠ [] := by
  simp [split_on_colon, splitChar_ne_nil]

/-- Embeds `remove_paths_from_path_var` from `src/unuse.py`.  The live
value is read from the environment (empty default); an absent or empty
variable bails out with no directive.  Each listed path is removed from
the split list via `list.remove` (first occurrence, `ValueError` ignored
= `List.erase`).  An emptied list unsets the variable, otherwise a single
set-directive carries the filtered list. -/
def remove_paths_from_path_var (envVars : List (String × String))
    (pathVar : String) (pathsToRemove : List String) : List Directive :=
  let cur := (alookup pathVar envVars).getD ""
  if cur = "" then []
  else
    let vals := split_on_colon cur
    if vals = [] then []
    else
      let vals := pathsToRemove.foldl (fun acc p => acc.erase p) vals
      if vals = [] then [.unsetEnvVar pathVar]
      else [.setPathVar pathVar vals]

/-- The `paths_to_remove` computation of `unuse_paths` in `src/unuse.py`
for one path variable `kv`: the entries this record added, minus those
also claimed by a subsequent branch, minus those already present in the
pre-activation value. -/
def unuse_path_candidates (e : UnuseEnv) (branch : String)
    (kv : String × List String) : List String :=
  (kv.2.filter (fun p =>
      decide (p ∉ (alookup kv.1 (subsequent_paths e branch)).getD []))).filter
    (fun p =>
      decide (p ∉ (alookup kv.1 (e.branchData branch).originalPathVars).getD []))

/-- Embeds `unuse_paths` from `src/unuse.py`: per path variable touched by
the record (prepends merged with postpends), the surviving candidates are
removed from the live list by `remove_paths_from_path_var`. -/
def unuse_paths (e : UnuseEnv) (branch : String) : List Directive :=
  (merge_dict_of_lists (e.branchData branch).newPathPrepends
      (e.branchData branch).newPathPostpends).flatMap
    (fun kv =>
      remove_paths_from_path_var e.envVars kv.1
        (unuse_path_candidates e branch kv))

/-- One iteration of the `unuse_aliases` loop body of `src/unuse.py`: skip
(`continue`) when the alias is gone from the live shell, when its live
value differs from the recorded value, or when any subsequent branch also
claims it; otherwise restore the pre-activation value, or unset the alias
if there was none. -/
def unuse_alias_step (currentAliases subs originalAliases :
    List (String × String)) (kv : String × String) : Option Directive :=
  match alookup kv.1 currentAliases with
  | none => none
  | some cur =>
    if cur ≠ kv.2 then none
    else if (alookup kv.1 subs).isSome then none
    else
      match alookup kv.1 originalAliases with
      | some ov => some (.setAlias kv.1 ov)
      | none => some (.unalias kv.1)

/-- Embeds `unuse_aliases` from `src/unuse.py`: the loop body
`unuse_alias_step` applied to every alias claimed by the record, in
stored order. -/
def unuse_aliases (e : UnuseEnv) (branch : String)
    (currentAliases : List (String × String)) : List Directive :=
  let data := e.branchData branch
  data.newAliases.filterMap
    (unuse_alias_step currentAliases (subsequent_aliases e branch)
      data.originalAliases)

/-- Embeds `unuse_env_vars` from `src/unuse.py`.  Unlike its alias twin,
the three skip cases use `return`, aborting the whole loop: an absent
variable, a diverging live value, or a subsequent claim ends processing of
every remaining variable, not just the current one. -/
def unuse_env_vars_go (originalVars subs envVars : List (String × String)) :
    List (String × String) → List Directive
  | [] => []
  | kv :: rest =>
    match alookup kv.1 envVars with
    | none => []
    | some cur =>
      if cur ≠ kv.2 then []
      else if (alookup kv.1 subs).isSome then []
      else
        (match alookup kv.1 originalVars with
         | some ov => Directive.setEnvVar kv.1 ov
         | none => Directive.unsetEnvVar kv.1) ::
          unuse_env_vars_go originalVars subs envVars rest

/-- Entry point of `unuse_env_vars` from `src/unuse.py`. -/
def unuse_env_vars (e : UnuseEnv) (branch : String) : List Directive :=
  let data := e.branchData branch
  unuse_env_vars_go data.originalEnvVars (subsequent_env_vars e branch)
    e.envVars data.newEnvVars

/-- Embeds `run_unuse_cmds` from `src/unuse.py`: the stored unuse shell
commands are emitted verbatim, in order. -/
def run_unuse_cmds (e : UnuseEnv) (branch : String) : List Directive :=
  (e.branchData branch).unuseShellCmds.map .runCmd

/-- The nine `unset USE_<BRANCH>_*` cleanup commands of `unuse` step 5. -/
def unuse_cleanup_cmds (branch : String) : List Directive :=
  [Directive.runCmd ("unset USE_" ++ branch.toUpper ++ "_ORIGINAL_PATH_VARS"),
   Directive.runCmd ("unset USE_" ++ branch.toUpper ++ "_USE_SHELL_CMDS"),
   Directive.runCmd ("unset USE_" ++ branch.toUpper ++ "_ORIGINAL_ALIASES"),
   Directive.runCmd ("unset USE_" ++ branch.toUpper ++ "_UNUSE_SHELL_CMDS"),
   Directive.runCmd ("unset USE_" ++ branch.toUpper ++ "_ORIGINAL_ENV_VARS"),
   Directive.runCmd ("unset USE_" ++ branch.toUpper ++ "_NEW_PATH_POSTPENDS"),
   Directive.runCmd ("unset USE_" ++ branch.toUpper ++ "_NEW_PATH_PREPENDS"),
   Directive.runCmd ("unset USE_" ++ branch.toUpper ++ "_NEW_ENV_VARS"),
   Directive.runCmd ("unset USE_" ++ branch.toUpper ++ "_NEW_ALIASES")]

/-- Embeds `unuse` from `src/unuse.py`.  An empty `USE_BRANCHES` (Python
`branches == ['']`) or a branch with no ledger record returns with no
directive at all.  Otherwise: path, alias and env-var reconciliation, the
stored unuse commands (behind the arbitrary-shell permission gate), the
per-branch cleanup unsets, and the rewritten `USE_BRANCHES` export. -/
def unuse (e : UnuseEnv) (branchName : String)
    (currentAliases : List (String × String))
    (allowArbitraryShellCmds : Bool) : List Directive :=
  if e.useBranches = [] then []
  else if branchName ∉ e.useBranches.map (·.branch) then []
  else
    unuse_paths e branchName ++
    unuse_aliases e branchName currentAliases ++
    unuse_env_vars e branchName ++
    (if allowArbitraryShellCmds then run_unuse_cmds e branchName else []) ++
    unuse_cleanup_cmds branchName ++
    [Directive.runCmd ("export USE_BRANCHES=" ++ String.intercalate ":"
      ((e.useBranches.filter (fun b => b.branch ≠ branchName)).map
        (fun b => b.branch ++ "," ++ b.name ++ "," ++ b.path)))]

/-- Embeds `used` from `src/used.py`: one entry per `USE_BRANCHES` record,
in stored order, each the record's package-name field (field 1 of the
comma-split entry); no deduplication. -/
def used_pkg_names (useBranches : List UseBranchEntry) : List String :=
  useBranches.map (·.name)

/-! ### Helper lemmas about the reconciler's emission shape -/

/-- Every directive emitted by `remove_paths_from_path_var` targets the
path variable it was called for. -/
theorem remove_paths_from_path_var_target (envVars : List (String × String))
    (pathVar : String) (ps : List String) :
    ∀ d ∈ remove_paths_from_path_var envVars pathVar ps,
      directive_target d = some pathVar := by
  intro d hd
  simp only [remove_paths_from_path_var] at hd
  split at hd
  · simp at hd
  · split at hd
    · simp at hd
    · split at hd
      · simp at hd
        subst hd
        rfl
      · simp at hd
        subst hd
        rfl

/-- Every directive emitted by the `unuse_aliases` loop body targets the
alias of the pair it processed. -/
theorem unuse_alias_step_target (cur subs orig : List (String × String))
    (kv : String × String) (d : Directive)
    (h : unuse_alias_step cur subs orig kv = some d) :
    directive_target d = some kv.1 := by
  unfold unuse_alias_step at h
  split at h
  · exact absurd h (by simp)
  · split at h
    · exact absurd h (by simp)
    · split at h
      · exact absurd h (by simp)
      · split at h
        · cases h
          rfl
        · cases h
          rfl

/-! ### C7: deactivating an unknown branch is a silent no-op -/

/-- C7: deactivating a branch with no record in the `USE_BRANCHES` ledger
emits no directive at all (so the ledger and the live shell state are left
untouched); `unuse` returns before any reconciliation step runs. -/
theorem unuse_unknown_branch_noop (e : UnuseEnv) (branchName : String)
    (currentAliases : List (String × String)) (allow : Bool)
    (h : branchName ∉ e.useBranches.map (·.branch)) :
    unuse e branchName currentAliases allow = [] := by
  by_cases h0 : e.useBranches = [] <;> simp [unuse, h0, h]

/-- Witness for C7 at a concrete ledger holding one other branch. -/
theorem unuse_unknown_branch_noop_witness :
    unuse ⟨[⟨"maya", "maya-2020", "/opt/maya.use"⟩], fun _ => {}, []⟩
      "nuke" [("ls", "ls -l")] true = [] :=
  unuse_unknown_branch_noop _ _ _ _ (by decide)

/-! ### C9: a path variable absent from the live shell is left alone -/

/-- C9: if a path variable touched by the record is absent from the live
environment or holds the empty string, the path reconciler emits no
directive for it at all, even when the record holds candidate entries
(`remove_paths_from_path_var` bails out before computing removals). -/
theorem unuse_paths_absent_var_no_directive (e : UnuseEnv) (branch V : String)
    (h : (alookup V e.envVars).getD "" = "") :
    (unuse_paths e branch).filter
      (fun d => decide (directive_target d = some V)) = [] := by
  apply List.filter_eq_nil_iff.mpr
  intro d hd
  simp only [unuse_paths, List.mem_flatMap] at hd
  obtain ⟨kv, _, hd⟩ := hd
  by_cases hk : kv.1 = V
  · rw [hk] at hd
    simp only [remove_paths_from_path_var, h, if_pos rfl] at hd
    simp at hd
  · have := remove_paths_from_path_var_target e.envVars kv.1 _ d hd
    simp [this, hk]

/-- Witness for C9: a record with candidate entries for `PATH`, but no
live `PATH`; nothing is emitted for `PATH`. -/
theorem unuse_paths_absent_var_no_directive_witness :
    (unuse_paths
        ⟨[⟨"b", "pkg", "/p.use"⟩],
         fun _ => { newPathPrepends := [("PATH", ["/opt/bin"])] },
         [("OTHER", "/x")]⟩ "b").filter
      (fun d => decide (directive_target d = some "PATH")) = [] :=
  unuse_paths_absent_var_no_directive _ _ _ (by decide)

/-! ### C10: `used` lists every active branch's package name in order -/

/-- C10: the `used` listing has exactly one entry per `USE_BRANCHES`
record, in stored (activation) order, each being that record's
package-name field; duplicate package names under distinct branches are
each listed (no deduplication, no sorting). -/
theorem used_pkg_names_spec (l : List UseBranchEntry) :
    (used_pkg_names l).length = l.length ∧
      ∀ i : Nat, (used_pkg_names l).get? i = (l.get? i).map (·.name) := by
  refine ⟨by simp [used_pkg_names], fun i => ?_⟩
  simp [used_pkg_names]

/-! ### C2: the `return`-for-`continue` slip in `unuse_env_vars` -/

/-- Concrete deactivation scenario for the env-var loop: the record claims
two env vars (and, symmetrically, two aliases); the first is absent from
the live state, the second is live with exactly the recorded value and has
a recorded pre-activation value. -/
def envC2 : UnuseEnv :=
  { useBranches := [⟨"b", "pkg", "/p.use"⟩],
    branchData := fun br =>
      if br = "b" then
        { newEnvVars := [("FIRST", "x"), ("SECOND", "y")],
          originalEnvVars := [("SECOND", "z")],
          newAliases := [("afirst", "x"), ("asecond", "y")],
          originalAliases := [("asecond", "z")] }
      else {},
    envVars := [("SECOND", "y")] }

/-- C2 (failing input): skipping the absent env var `FIRST` aborts the
whole loop (`return` in `src/unuse.py:379`), so no restore is emitted for
`SECOND` even though it passes all three tests — while the alias loop,
whose skip cases use `continue`, does restore the analogous alias. -/
theorem unuse_env_vars_return_aborts_loop :
    unuse_env_vars envC2 "b" = [] ∧
      unuse_aliases envC2 "b" [("asecond", "y")] =
        [Directive.setAlias "asecond" "z"] := by
  constructor <;> rfl

/-! ### C1: when does a subsequent claim suppress the alias undo? -/

/-- Concrete two-branch ledger: branch `a` set alias `ll` to `ls -l`
(still live with that value); the subsequent branch `b` claims `ll` with a
different value. -/
def envC1 : UnuseEnv :=
  { useBranches := [⟨"a", "pkga", "/a.use"⟩, ⟨"b", "pkgb", "/b.use"⟩],
    branchData := fun br =>
      if br = "a" then { newAliases := [("ll", "ls -l")] }
      else if br = "b" then { newAliases := [("ll", "ls -la")] }
      else {},
    envVars := [] }

/-- C1 (counterexample): branch `b`'s claim on `ll` carries a *different*
value, so by the claim the reconciler should proceed to remove `ll`
(it had no pre-activation value); the code skips `ll` anyway, because
`unuse_aliases` tests only key membership in the merged subsequent dict,
never the claimed value. -/
theorem unuse_aliases_subsequent_any_value_skips :
    unuse_aliases envC1 "a" [("ll", "ls -l")] = [] := by rfl

/-- Helper: each directive produced by the alias loop targets the alias of
the record pair it was produced from. -/
theorem unuse_aliases_filterMap_target (cur subs orig :
    List (String × String)) (L : List (String × String)) (d : Directive)
    (hd : d ∈ L.filterMap (unuse_alias_step cur subs orig)) :
    ∃ kv ∈ L, directive_target d = some kv.1 := by
  obtain ⟨kv, hkv, hstep⟩ := List.mem_filterMap.mp hd
  exact ⟨kv, hkv, unuse_alias_step_target cur subs orig kv d hstep⟩

/-- Helper for C1: over any alias record with unique keys, the directives
the alias loop emits for a claimed alias `an` whose live value equals the
recorded value are empty exactly when some subsequent branch claims `an`
(with any value); otherwise the single restore-or-remove directive. -/
theorem unuse_alias_filter_eq (cur subs orig : List (String × String))
    (an av : String) :
    ∀ L : List (String × String), (L.map Prod.fst).Nodup →
      alookup an L = some av → alookup an cur = some av →
      (L.filterMap (unuse_alias_step cur subs orig)).filter
        (fun d => decide (directive_target d = some an)) =
      (if (alookup an subs).isSome then []
       else [match alookup an orig with
             | some ov => Directive.setAlias an ov
             | none => Directive.unalias an]) := by
  intro L
  induction L with
  | nil => intro _ hA _; simp [alookup] at hA
  | cons kv rest ih =>
    obtain ⟨k, v⟩ := kv
    intro hnd hA hcur
    by_cases hk : k = an
    · subst hk
      have hv : v = av := by
        have h := hA
        simp only [alookup, if_true] at h
        exact Option.some.inj h
      subst hv
      have hknotin : k ∉ rest.map Prod.fst := by
        have h := hnd
        simp only [List.map_cons, List.nodup_cons] at h
        exact h.1
      have hrest' : (rest.filterMap (unuse_alias_step cur subs orig)).filter
          (fun d => decide (directive_target d = some k)) = [] := by
        apply List.filter_eq_nil_iff.mpr
        intro d hd
        obtain ⟨kv', hkv', ht⟩ :=
          unuse_aliases_filterMap_target cur subs orig rest d hd
        simp only [decide_eq_true_eq, ht, Option.some.injEq]
        intro hEq
        exact hknotin (hEq ▸ List.mem_map_of_mem Prod.fst hkv')
      cases horig : alookup k orig with
      | some ov =>
        have hstep : unuse_alias_step cur subs orig (k, v) =
            (if (alookup k subs).isSome then none
             else some (Directive.setAlias k ov)) := by
          simp only [unuse_alias_step, hcur]
          rw [if_neg (fun h => h rfl), horig]
        by_cases hs : (alookup k subs).isSome
        · have hstep2 : unuse_alias_step cur subs orig (k, v) = none := by
            rw [hstep, if_pos hs]
          rw [List.filterMap_cons, hstep2, if_pos hs]
          exact hrest'
        · have hstep2 : unuse_alias_step cur subs orig (k, v) =
              some (Directive.setAlias k ov) := by
            rw [hstep, if_neg hs]
          rw [List.filterMap_cons, hstep2, if_neg hs]
          rw [List.filter_cons, if_pos (by simp [directive_target]), hrest']
      | none =>
        have hstep : unuse_alias_step cur subs orig (k, v) =
            (if (alookup k subs).isSome then none
             else some (Directive.unalias k)) := by
          simp only [unuse_alias_step, hcur]
          rw [if_neg (fun h => h rfl), horig]
        by_cases hs : (alookup k subs).isSome
        · have hstep2 : unuse_alias_step cur subs orig (k, v) = none := by
            rw [hstep, if_pos hs]
          rw [List.filterMap_cons, hstep2, if_pos hs]
          exact hrest'
        · have hstep2 : unuse_alias_step cur subs orig (k, v) =
              some (Directive.unalias k) := by
            rw [hstep, if_neg hs]
          rw [List.filterMap_cons, hstep2, if_neg hs]
          rw [List.filter_cons, if_pos (by simp [directive_target]), hrest']
    · have hA' : alookup an rest = some av := by
        have h := hA
        simp only [alookup, if_neg hk] at h
        exact h
      have hnd' : (rest.map Prod.fst).Nodup := by
        have h := hnd
        simp only [List.map_cons, List.nodup_cons] at h
        exact h.2
      rw [List.filterMap_cons]
      cases hstep : unuse_alias_step cur subs orig (k, v) with
      | none => exact ih hnd' hA' hcur
      | some d0 =>
        have ht : directive_target d0 = some k :=
          unuse_alias_step_target cur subs orig (k, v) d0 hstep
        rw [List.filter_cons]
        rw [if_neg (by simp [ht, hk])]
        exact ih hnd' hA' hcur

/-- C1 (amended): for an alias `an` that the record being deactivated
claims with value `av` and whose live value is still exactly `av`, the
reconciler does nothing for `an` if and only if some subsequent branch
also claims `an` — with *any* value, equal or not (`unuse_aliases` tests
only key membership of the merged subsequent claims); when no subsequent
branch claims `an`, it emits the single restore directive (pre-activation
value recorded) or removal directive (no pre-activation value). -/
theorem unuse_aliases_skip_iff_subsequent_claim (e : UnuseEnv)
    (branch an av : String) (currentAliases : List (String × String))
    (hnd : ((e.branchData branch).newAliases.map Prod.fst).Nodup)
    (hclaim : alookup an (e.branchData branch).newAliases = some av)
    (hlive : alookup an currentAliases = some av) :
    (unuse_aliases e branch currentAliases).filter
      (fun d => decide (directive_target d = some an)) =
    (if (alookup an (subsequent_aliases e branch)).isSome then []
     else [match alookup an (e.branchData branch).originalAliases with
           | some ov => Directive.setAlias an ov
           | none => Directive.unalias an]) := by
  unfold unuse_aliases
  exact unuse_alias_filter_eq currentAliases (subsequent_aliases e branch)
    (e.branchData branch).originalAliases an av
    (e.branchData branch).newAliases hnd hclaim hlive

/-- Concrete ledger for the C1 witness: the subsequent branch `b` claims a
different alias, so deactivating `a` must restore `ll`. -/
def envC1w : UnuseEnv :=
  { useBranches := [⟨"a", "pkga", "/a.use"⟩, ⟨"b", "pkgb", "/b.use"⟩],
    branchData := fun br =>
      if br = "a" then
        { newAliases := [("ll", "ls -l")],
          originalAliases := [("ll", "ls -hal")] }
      else if br = "b" then { newAliases := [("gg", "grep -i")] }
      else {},
    envVars := [] }

/-- Witness for the amended C1 at a concrete ledger: no subsequent branch
claims `ll`, so the recorded pre-activation value is restored. -/
theorem unuse_aliases_skip_iff_subsequent_claim_witness :
    (unuse_aliases envC1w "a" [("ll", "ls -l")]).filter
      (fun d => decide (directive_target d = some "ll")) =
      [Directive.setAlias "ll" "ls -hal"] :=
  (unuse_aliases_skip_iff_subsequent_claim envC1w "a" "ll" "ls -l"
    [("ll", "ls -l")] (by decide) (by decide) (by decide)).trans (by decide)

/-! ### C3: path deactivation removes exactly the surviving candidates -/

/-- Helper: repeatedly applying Python's `list.remove` (= `List.erase`)
for each element of `R` to a duplicate-free list `L` filters out of `L`
exactly the members of `R`, keeping the remaining entries in order. -/
theorem foldl_erase_eq_filter {α : Type} [DecidableEq α] :
    ∀ (R L : List α), L.Nodup →
      R.foldl (fun acc p => acc.erase p) L =
        L.filter (fun x => decide (x ∉ R))
  | [], L, _ => by simp
  | r :: R, L, hL => by
    rw [List.foldl_cons]
    rw [foldl_erase_eq_filter R (L.erase r) (hL.erase r)]
    rw [List.Nodup.erase_eq_filter hL r]
    rw [List.filter_filter]
    apply List.filter_congr
    intro x _
    by_cases h1 : x = r <;> by_cases h2 : x ∈ R <;> simp [h1, h2]

/-- Helper: filtering a per-key flatMap emission down to the directives
that target `V` isolates exactly the chunk emitted for `V`'s entry, when
keys are unique and every chunk only targets its own key. -/
theorem flatMap_filter_target {β : Type} (f : String × β → List Directive)
    (hf : ∀ kv d, d ∈ f kv → directive_target d = some kv.1)
    (V : String) (vs : β) :
    ∀ L : List (String × β), (L.map Prod.fst).Nodup →
      alookup V L = some vs →
      (L.flatMap f).filter (fun d => decide (directive_target d = some V)) =
        f (V, vs) := by
  intro L
  induction L with
  | nil => intro _ hA; simp [alookup] at hA
  | cons kv rest ih =>
    obtain ⟨k, b⟩ := kv
    intro hnd hA
    have hnotin : k ∉ rest.map Prod.fst := by
      have h := hnd
      simp only [List.map_cons, List.nodup_cons] at h
      exact h.1
    have hnd' : (rest.map Prod.fst).Nodup := by
      have h := hnd
      simp only [List.map_cons, List.nodup_cons] at h
      exact h.2
    rw [List.flatMap_cons, List.filter_append]
    by_cases hk : k = V
    · subst hk
      have hb : b = vs := by
        have h := hA
        simp only [alookup, if_true] at h
        exact Option.some.inj h
      subst hb
      have hhead : (f (k, b)).filter
          (fun d => decide (directive_target d = some k)) = f (k, b) := by
        apply List.filter_eq_self.mpr
        intro d hd
        simp [hf (k, b) d hd]
      have htail : (rest.flatMap f).filter
          (fun d => decide (directive_target d = some k)) = [] := by
        apply List.filter_eq_nil_iff.mpr
        intro d hd
        obtain ⟨kv', hkv', hd'⟩ := List.mem_flatMap.mp hd
        have ht := hf kv' d hd'
        simp only [decide_eq_true_eq, ht, Option.some.injEq]
        intro hEq
        exact hnotin (hEq ▸ List.mem_map_of_mem Prod.fst hkv')
      rw [hhead, htail, List.append_nil]
    · have hA' : alookup V rest = some vs := by
        have h := hA
        simp only [alookup, if_neg hk] at h
        exact h
      have hhead : (f (k, b)).filter
          (fun d => decide (directive_target d = some V)) = [] := by
        apply List.filter_eq_nil_iff.mpr
        intro d hd
        have ht := hf (k, b) d hd
        simp [ht, hk]
      rw [hhead, List.nil_append]
      exact ih hnd' hA'

/-- C3: for a path variable `V` touched by the record, with a live,
duplicate-free entry list, the reconciler removes from the live list
exactly those members of the record's merged prepend/postpend lists that
(i) are absent from the record's pre-activation value of `V`, (ii) are
claimed by no subsequent branch for `V`, and (iii) are present in the live
list — every other live entry survives in its existing relative order;
the variable is unset when nothing survives. -/
theorem unuse_paths_removes_exactly (e : UnuseEnv) (branch V s : String)
    (newVals : List String)
    (hnd : ((merge_dict_of_lists (e.branchData branch).newPathPrepends
        (e.branchData branch).newPathPostpends).map Prod.fst).Nodup)
    (hclaim : alookup V (merge_dict_of_lists
        (e.branchData branch).newPathPrepends
        (e.branchData branch).newPathPostpends) = some newVals)
    (hlive : alookup V e.envVars = some s)
    (hs : s ≠ "")
    (hsplit : (split_on_colon s).Nodup) :
    (unuse_paths e branch).filter
      (fun d => decide (directive_target d = some V)) =
    (if (split_on_colon s).filter (fun x => decide (¬(x ∈ newVals ∧
          x ∉ (alookup V (subsequent_paths e branch)).getD [] ∧
          x ∉ (alookup V (e.branchData branch).originalPathVars).getD [])))
        = [] then
      [Directive.unsetEnvVar V]
     else
      [Directive.setPathVar V ((split_on_colon s).filter (fun x =>
        decide (¬(x ∈ newVals ∧
          x ∉ (alookup V (subsequent_paths e branch)).getD [] ∧
          x ∉ (alookup V (e.branchData branch).originalPathVars).getD []))))]) := by
  have hmain := flatMap_filter_target
    (fun kv => remove_paths_from_path_var e.envVars kv.1
      (unuse_path_candidates e branch kv))
    (fun kv d hd => remove_paths_from_path_var_target e.envVars kv.1 _ d hd)
    V newVals
    (merge_dict_of_lists (e.branchData branch).newPathPrepends
      (e.branchData branch).newPathPostpends) hnd hclaim
  rw [unuse_paths, hmain]
  have hkeep : (unuse_path_candidates e branch (V, newVals)).foldl
      (fun acc p => acc.erase p) (split_on_colon s) =
      (split_on_colon s).filter (fun x => decide (¬(x ∈ newVals ∧
        x ∉ (alookup V (subsequent_paths e branch)).getD [] ∧
        x ∉ (alookup V (e.branchData branch).originalPathVars).getD []))) := by
    rw [foldl_erase_eq_filter _ _ hsplit]
    apply List.filter_congr
    intro x _
    by_cases h1 : x ∈ newVals <;>
      by_cases h2 : x ∈ (alookup V (subsequent_paths e branch)).getD [] <;>
      by_cases h3 : x ∈ (alookup V (e.branchData branch).originalPathVars).getD [] <;>
      simp [unuse_path_candidates, List.mem_filter, h1, h2, h3]
  simp only [remove_paths_from_path_var, hlive, Option.getD_some, if_neg hs,
    if_neg (split_on_colon_ne_nil s), hkeep]

/-- Concrete deactivation for the C3 witness: branch `a` added `/x`, `/y`,
`/z` to `PATH`; `/y` is also claimed by the subsequent branch `b`; `/z`
pre-existed; the live `PATH` is `/a:/x:/b`. -/
def envC3w : UnuseEnv :=
  { useBranches := [⟨"a", "pkga", "/a.use"⟩, ⟨"b", "pkgb", "/b.use"⟩],
    branchData := fun br =>
      if br = "a" then
        { newPathPrepends := [("PATH", ["/x", "/y", "/z"])],
          originalPathVars := [("PATH", ["/z"])] }
      else if br = "b" then { newPathPrepends := [("PATH", ["/y"])] }
      else {},
    envVars := [("PATH", "/a:/x:/b")] }

/-- Witness for C3: only `/x` survives the candidate filters and is
present in the live list, so exactly `/x` is removed and the other live
entries keep their order. -/
theorem unuse_paths_removes_exactly_witness :
    (unuse_paths envC3w "a").filter
      (fun d => decide (directive_target d = some "PATH")) =
      [Directive.setPathVar "PATH" ["/a", "/b"]] :=
  (unuse_paths_removes_exactly envC3w "a" "PATH" "/a:/x:/b"
    ["/x", "/y", "/z"] (by decide) (by decide) (by decide) (by decide)
    (by decide)).trans (by decide)

/-! ### C6: activation order and the subsequent-records query -/

/-- Helper: in a ledger with one record per branch, the position of a
record is determined by its branch field (positions are the logical
activation clock: `USE_BRANCHES` insertion order = timestamp order). -/
theorem branch_position_inj (l : List UseBranchEntry)
    (hnd : (l.map (·.branch)).Nodup) (j k : Nat)
    (hj : j < l.length) (hk : k < l.length)
    (h : l[j].branch = l[k].branch) : j = k := by
  have hj' : j < (l.map (·.branch)).length := by simpa using hj
  have hk' : k < (l.map (·.branch)).length := by simpa using hk
  have hEq : (l.map (·.branch))[j] = (l.map (·.branch))[k] := by
    simpa using h
  exact (List.Nodup.getElem_inj_iff hnd).mp hEq

/-- Helper: when `l[i]` is the first record of branch `br`, the
store-flag walk of `get_subsequent_use_packages` returns exactly the
records stored after position `i`. -/
theorem get_subsequent_eq_drop (br : String) :
    ∀ (l : List UseBranchEntry) (i : Nat) (hi : i < l.length),
      l[i].branch = br →
      (∀ j (hj : j < l.length), j < i → l[j].branch ≠ br) →
      get_subsequent_use_packages br l = l.drop (i + 1) := by
  intro l
  induction l with
  | nil => intro i hi _ _; simp at hi
  | cons e rest ih =>
    intro i hi hbr hearlier
    cases i with
    | zero =>
      have he : e.branch = br := by simpa using hbr
      simp [get_subsequent_use_packages, he]
    | succ n =>
      have he : e.branch ≠ br := by
        have h := hearlier 0 (by omega) (by omega)
        simpa using h
      have hrec : get_subsequent_use_packages br rest = rest.drop (n + 1) := by
        apply ih n (by simpa using hi) (by simpa using hbr)
        intro j hj hjn
        have h := hearlier (j + 1) (by simpa using hj) (by omega)
        simpa using h
      simp [get_subsequent_use_packages, he, hrec, List.drop_succ_cons]

/-- C6: with the ledger invariant (at most one record per branch) and the
position in `USE_BRANCHES` as the logical activation timestamp, (a)
distinct records occupy distinct clock positions — the branch field alone
fixes the position, so activation order totally orders the records — and
(b) `get_subsequent_use_packages` returns exactly the records at strictly
greater positions than the given branch's record, none of which belongs
to that branch. -/
theorem subsequent_records_exactly_later (l : List UseBranchEntry)
    (br : String) (i : Nat) (hi : i < l.length) (hbr : l[i].branch = br)
    (hnd : (l.map (·.branch)).Nodup) :
    (∀ j k, ∀ hj : j < l.length, ∀ hk : k < l.length,
        l[j].branch = l[k].branch → j = k) ∧
    (∀ r, r ∈ get_subsequent_use_packages br l ↔
      ∃ j, ∃ hj : j < l.length, i < j ∧ l[j] = r ∧ r.branch ≠ br) := by
  have hinj := branch_position_inj l hnd
  have hearlier : ∀ j (hj : j < l.length), j < i → l[j].branch ≠ br := by
    intro j hj hji hEq
    have := hinj j i hj hi (by rw [hEq, hbr])
    omega
  constructor
  · exact hinj
  · intro r
    rw [get_subsequent_eq_drop br l i hi hbr hearlier]
    rw [List.mem_drop_iff_getElem]
    constructor
    · rintro ⟨idx, hidx, hget⟩
      refine ⟨i + 1 + idx, by omega, by omega, hget, ?_⟩
      intro hrb
      have : i + 1 + idx = i := by
        apply hinj _ _ (by omega) hi
        rw [hget, hrb, hbr]
      omega
    · rintro ⟨j, hj, hij, hget, _⟩
      refine ⟨j - (i + 1), by omega, ?_⟩
      convert hget using 2
      omega

/-- Witness for C6 on a three-record ledger: the record of the third
branch is returned as subsequent to the first. -/
theorem subsequent_records_exactly_later_witness :
    (⟨"c", "pc", "/c"⟩ : UseBranchEntry) ∈
      get_subsequent_use_packages "a"
        [⟨"a", "pa", "/a"⟩, ⟨"b", "pb", "/b"⟩, ⟨"c", "pc", "/c"⟩] :=
  ((subsequent_records_exactly_later
      [⟨"a", "pa", "/a"⟩, ⟨"b", "pb", "/b"⟩, ⟨"c", "pc", "/c"⟩]
      "a" 0 (by decide) (by decide) (by decide)).2
    ⟨"c", "pc", "/c"⟩).mpr ⟨2, by decide, by decide, by decide, by decide⟩

/-! ### String substitution machinery (`src/use.py`)

Python `str.replace` and the longest-key-first placeholder substitution
of the `format_*_for_shell` functions, embedded on `List Char` so that
everything reduces in the kernel. -/

/-- Does `s` start with `p`? (Bool, structural.) -/
def startsWith : List Char → List Char → Bool
  | [], _ => true
  | _ :: _, [] => false
  | a :: ps, b :: ss => a == b && startsWith ps ss

/-- Does `q` occur as a contiguous substring of `s`? (Python `q in s`.) -/
def occursIn (q : List Char) : List Char → Bool
  | [] => q.isEmpty
  | c :: s => startsWith q (c :: s) || occursIn q s

/-- Python `in` on strings: substring test. -/
def strContains (s sub : String) : Bool := occursIn sub.data s.data

/-- Fuelled core of Python `str.replace`: scan left to right; at a match
of `p` emit `v` and continue after the matched chunk, otherwise emit one
character and continue.  Structural on the fuel so that it reduces in the
kernel; with fuel ≥ length of the text the fuel never runs out since a
match consumes at least one character (`p ≠ []` guard). -/
def replaceAllF (p v : List Char) : Nat → List Char → List Char
  | _, [] => []
  | 0, t => t
  | fuel + 1, c :: t =>
    if p ≠ [] ∧ startsWith p (c :: t) then
      v ++ replaceAllF p v fuel ((c :: t).drop p.length)
    else
      c :: replaceAllF p v fuel t

/-- Python `t.replace(p, v)` for a nonempty pattern `p` (with `p = []` it
degenerates to the identity, a case the program never exercises). -/
def replaceAll (p v t : List Char) : List Char :=
  replaceAllF p v t.length t

/-- Python `s.replace(pat, val)` at the `String` level. -/
def py_replace (s pat val : String) : String :=
  String.mk (replaceAll pat.data val.data s.data)

/-- First-occurrence deduplication (Python dict-key insertion order). -/
def dedup_first {α : Type} [DecidableEq α] : List α → List α
  | [] => []
  | x :: xs => x :: (dedup_first xs).filter (fun y => decide (y ≠ x))

/-- Insertion into a descending-sorted list. -/
def insertDesc (n : Nat) : List Nat → List Nat
  | [] => [n]
  | m :: ms => if n ≥ m then n :: m :: ms else m :: insertDesc n ms

/-- Insertion into an ascending-sorted list. -/
def insertAsc (n : Nat) : List Nat → List Nat
  | [] => [n]
  | m :: ms => if n ≤ m then n :: m :: ms else m :: insertAsc n ms

/-- Embeds `sort_list_of_strings_by_length` from `src/use.py`: bucket the
strings by length (buckets keep original order, as the `temp` dict does),
then emit the buckets by sorted length — descending when `inverse`. -/
def sort_list_of_strings_by_length (l : List String) (inverse : Bool) :
    List String :=
  let lengths := dedup_first (l.map (·.length))
  let lengths := if inverse then lengths.foldr insertDesc []
                 else lengths.foldr insertAsc []
  lengths.flatMap (fun n => l.filter (fun s => decide (s.length = n)))

/-- The replacement loop shared by the `format_*_for_shell` functions of
`src/use.py`: for each substitution key, longest first, replace `$KEY`
by its value everywhere in the text. -/
def apply_substitutions (text : String) (vars : List (String × String)) :
    String :=
  (sort_list_of_strings_by_length (vars.map Prod.fst) true).foldl
    (fun t k => py_replace t ("$" ++ k) ((alookup k vars).getD "")) text

/-- The built-in substitution dict of `get_built_in_vars` in `src/use.py`,
in its insertion order. -/
def built_in_vars (vV vU vP vPre : String) : List (String × String) :=
  [("VERSION", vV), ("USE_PKG_PATH", vU), ("VERSION_PATH", vP),
   ("PRE_VERSION_PATH", vPre)]

/-- A substitution value that cannot splice new placeholder occurrences
together: nonempty, free of `$`, and starting with a character that does
not appear in any built-in key (true of the program's values — version
strings and absolute filesystem paths). -/
def safe_sub_value (v : String) : Prop :=
  v.data ≠ [] ∧ '$' ∉ v.data ∧ v.data.headI ∉ "$PRE_VERSION_PATH".data

/-- The first three substitution steps (the keys strictly longer than
`VERSION`, in the order `sort_list_of_strings_by_length` emits them). -/
def substitute_longer_keys (text : String) (vU vP vPre : String) : String :=
  py_replace (py_replace (py_replace text "$PRE_VERSION_PATH" vPre)
    "$USE_PKG_PATH" vU) "$VERSION_PATH" vP

/-! ### Activation path merge (`format_paths_for_shell`, `src/use.py`) -/

/-- Embeds the per-variable body of `format_paths_for_shell`
(`src/use.py:994-1040`): substitute the placeholders in the prepend and
postpend lists, read and split the live value, drop from prepends and
postpends the entries already live, and emit
`export VAR=prepends:live:postpends`. -/
def format_path_var_for_shell (subVars : List (String × String))
    (pathVar : String) (prepends postpends : List String)
    (envVars : List (String × String)) : String :=
  let prepends := prepends.map (fun p => apply_substitutions p subVars)
  let postpends := postpends.map (fun p => apply_substitutions p subVars)
  let current_paths := split_on_colon ((alookup pathVar envVars).getD "")
  let actual_prepends := prepends.filter (fun p => decide (p ∉ current_paths))
  let actual_postpends := postpends.filter (fun p => decide (p ∉ current_paths))
  "export " ++ pathVar ++ "=" ++
    String.intercalate ":" (actual_prepends ++ current_paths ++ actual_postpends)

/-- Modelled from the spec's words (section 4.2 step 3), for comparison
with the code: prepend-list, then the live entries with anything in
prepends or postpends filtered out, then the postpends with duplicates of
a prepend dropped (prepend wins ties). -/
def spec_merge_path_var (prepends postpends current : List String) :
    List String :=
  prepends ++
    current.filter (fun x => decide (x ∉ prepends ∧ x ∉ postpends)) ++
    postpends.filter (fun x => decide (x ∉ prepends))

/-! ### C8: longest-key-first substitution lemmas -/

/-- A string starting with `$` cannot occur inside a `$`-free chunk glued
to the front of `R` unless it already occurs in `R`. -/
theorem occursIn_append_false (qt : List Char) (v R : List Char)
    (hdv : '$' ∉ v) (hR : occursIn ('$' :: qt) R = false) :
    occursIn ('$' :: qt) (v ++ R) = false := by
  induction v with
  | nil => simpa using hR
  | cons c v' ih =>
    have hc : ('$' : Char) ≠ c := fun h => hdv (h ▸ List.mem_cons_self c v')
    have hdv' : '$' ∉ v' := fun h => hdv (List.mem_cons_of_mem c h)
    simp only [List.cons_append, occursIn, startsWith, Bool.or_eq_false_iff]
    constructor
    · simp [beq_eq_false_iff_ne.mpr hc]
    · exact ih hdv'

/-- Dropping an initial segment cannot create an occurrence. -/
theorem occursIn_tail_false (q : List Char) (c : Char) (s : List Char)
    (h : occursIn q (c :: s) = false) : occursIn q s = false := by
  simp only [occursIn, Bool.or_eq_false_iff] at h
  exact h.2

/-- `List.drop` version of `occursIn_tail_false`. -/
theorem occursIn_drop_false (q : List Char) :
    ∀ (n : Nat) (t : List Char), occursIn q t = false →
      occursIn q (t.drop n) = false
  | 0, t, h => by simpa using h
  | n + 1, [], h => by simpa using h
  | n + 1, c :: s, h => by
    rw [List.drop_succ_cons]
    exact occursIn_drop_false q n s (occursIn_tail_false q c s h)

/-- Prefix-transfer: when the replacement value is nonempty and starts
with a character foreign to `w`, any `w`-prefix of a replaced text was
already a prefix of the original text. -/
theorem startsWith_replaceAllF (p : List Char) (vh : Char) (vt : List Char) :
    ∀ (fuel : Nat) (w t : List Char), vh ∉ w → t.length ≤ fuel →
      startsWith w (replaceAllF p (vh :: vt) fuel t) = true →
      startsWith w t = true := by
  intro fuel
  induction fuel with
  | zero =>
    intro w t hvw ht hw
    cases t with
    | nil => simpa using hw
    | cons c t' => simp at ht
  | succ fuel ih =>
    intro w t hvw ht hw
    cases t with
    | nil => simpa using hw
    | cons c t' =>
      rw [replaceAllF] at hw
      by_cases hm : p ≠ [] ∧ startsWith p (c :: t')
      · rw [if_pos hm] at hw
        cases w with
        | nil => rfl
        | cons w0 w' =>
          exfalso
          simp only [List.cons_append, startsWith, Bool.and_eq_true,
            beq_iff_eq] at hw
          exact hvw (hw.1 ▸ List.mem_cons_self w0 w')
      · rw [if_neg hm] at hw
        cases w with
        | nil => rfl
        | cons w0 w' =>
          simp only [startsWith, Bool.and_eq_true, beq_iff_eq] at hw ⊢
          refine ⟨hw.1, ?_⟩
          exact ih w' t' (fun h => hvw (List.mem_cons_of_mem w0 h))
            (by simpa using ht) hw.2

/-- Core replacement lemma: replacing `$`-keyed pattern `p` with a safe
value leaves no occurrence of a `$`-keyed string `q` when either `q` is
`p` itself (the replacement eliminates every occurrence) or `q` did not
occur before (the replacement cannot splice one together). -/
theorem occursIn_replaceAllF_false (pt qt : List Char) (vh : Char)
    (vt : List Char) (hdv : '$' ∉ vh :: vt) (hvq : vh ∉ '$' :: qt) :
    ∀ (fuel : Nat) (t : List Char), t.length ≤ fuel →
      (('$' :: qt) = ('$' :: pt) ∨ occursIn ('$' :: qt) t = false) →
      occursIn ('$' :: qt) (replaceAllF ('$' :: pt) (vh :: vt) fuel t)
        = false := by
  intro fuel
  induction fuel with
  | zero =>
    intro t ht hqp
    cases t with
    | nil => simp [occursIn]
    | cons c t' => simp at ht
  | succ fuel ih =>
    intro t ht hqp
    cases t with
    | nil => simp [occursIn]
    | cons c t' =>
      rw [replaceAllF]
      by_cases hm : ('$' :: pt) ≠ [] ∧ startsWith ('$' :: pt) (c :: t')
      · rw [if_pos hm]
        have hlen : ((c :: t').drop ('$' :: pt).length).length ≤ fuel := by
          simp only [List.length_drop, List.length_cons] at *
          omega
        have hrec : occursIn ('$' :: qt)
            (replaceAllF ('$' :: pt) (vh :: vt) fuel
              ((c :: t').drop ('$' :: pt).length)) = false := by
          apply ih _ hlen
          rcases hqp with hqp | hqp
          · exact Or.inl hqp
          · exact Or.inr (occursIn_drop_false _ _ _ hqp)
        exact occursIn_append_false qt (vh :: vt) _ hdv hrec
      · rw [if_neg hm]
        have hrec : occursIn ('$' :: qt)
            (replaceAllF ('$' :: pt) (vh :: vt) fuel t') = false := by
          apply ih _ (by simpa using ht)
          rcases hqp with hqp | hqp
          · exact Or.inl hqp
          · exact Or.inr (occursIn_tail_false _ _ _ hqp)
        simp only [occursIn, Bool.or_eq_false_iff]
        refine ⟨?_, hrec⟩
        by_cases hsw : startsWith ('$' :: qt)
            (c :: replaceAllF ('$' :: pt) (vh :: vt) fuel t') = true
        · exfalso
          simp only [startsWith, Bool.and_eq_true, beq_iff_eq] at hsw
          obtain ⟨hc, hsw'⟩ := hsw
          have hqt : startsWith qt t' = true :=
            startsWith_replaceAllF ('$' :: pt) vh vt fuel qt t'
              (fun h => hvq (List.mem_cons_of_mem '$' h))
              (by simpa using ht) hsw'
          have hq_t : startsWith ('$' :: qt) (c :: t') = true := by
            simp only [startsWith, Bool.and_eq_true, beq_iff_eq]
            exact ⟨hc, hqt⟩
          rcases hqp with hqp | hqp
          · apply hm
            refine ⟨by simp, ?_⟩
            rw [← hqp]
            exact hq_t
          · simp only [occursIn, Bool.or_eq_false_iff] at hqp
            rw [hq_t] at hqp
            simp at hqp
        · simpa using hsw

/-- String-level wrapper of the core replacement lemma, phrased for
`py_replace`. -/
theorem occursIn_py_replace_false (s pat val : String) (pt qt : List Char)
    (hpat : pat.data = '$' :: pt) (hne : val.data ≠ [])
    (hvd : '$' ∉ val.data) (hvh : val.data.headI ∉ '$' :: qt)
    (hstart : ('$' :: qt) = pat.data ∨ occursIn ('$' :: qt) s.data = false) :
    occursIn ('$' :: qt) (py_replace s pat val).data = false := by
  obtain ⟨vh, vt, hv⟩ : ∃ vh vt, val.data = vh :: vt := by
    cases hval2 : val.data with
    | nil => exact absurd hval2 hne
    | cons a b => exact ⟨a, b, rfl⟩
  have hvh' : vh ∉ '$' :: qt := by
    rw [hv] at hvh
    simpa using hvh
  have hvd' : '$' ∉ vh :: vt := hv ▸ hvd
  show occursIn ('$' :: qt) (replaceAll pat.data val.data s.data) = false
  rw [hpat, hv, replaceAll]
  apply occursIn_replaceAllF_false pt qt vh vt hvd' hvh' s.data.length
    s.data le_rfl
  rcases hstart with hstart | hstart
  · exact Or.inl (by rw [hstart, hpat])
  · exact Or.inr hstart

/-- C8: the built-in keys are substituted longest first —
`PRE_VERSION_PATH`, then `USE_PKG_PATH`, then `VERSION_PATH`, with
`VERSION` last — and for every input text, by the time `$VERSION` is
substituted, the text holds no occurrence of `$VERSION_PATH` or
`$PRE_VERSION_PATH` at all (for substitution values that cannot splice
placeholders together: nonempty, `$`-free, first character not a key
character — true of version strings and absolute paths), so substituting
`$VERSION` never rewrites the `$VERSION` prefix inside such an
occurrence. -/
theorem substitution_longest_first_protects
    (text vV vU vP vPre : String)
    (hU : safe_sub_value vU) (hP : safe_sub_value vP)
    (hPre : safe_sub_value vPre) :
    sort_list_of_strings_by_length
        ((built_in_vars vV vU vP vPre).map Prod.fst) true =
      ["PRE_VERSION_PATH", "USE_PKG_PATH", "VERSION_PATH", "VERSION"] ∧
    apply_substitutions text (built_in_vars vV vU vP vPre) =
      py_replace (substitute_longer_keys text vU vP vPre) "$VERSION" vV ∧
    occursIn ("$VERSION_PATH").data
      (substitute_longer_keys text vU vP vPre).data = false ∧
    occursIn ("$PRE_VERSION_PATH").data
      (substitute_longer_keys text vU vP vPre).data = false := by
  obtain ⟨hPreNe, hPreD, hPreH⟩ := hPre
  obtain ⟨hUNe, hUD, hUH⟩ := hU
  obtain ⟨hPNe, hPD, hPH⟩ := hP
  have hdata_pre : ("$PRE_VERSION_PATH" : String).data =
      '$' :: ("PRE_VERSION_PATH" : String).data := by decide
  have hdata_use : ("$USE_PKG_PATH" : String).data =
      '$' :: ("USE_PKG_PATH" : String).data := by decide
  have hdata_vp : ("$VERSION_PATH" : String).data =
      '$' :: ("VERSION_PATH" : String).data := by decide
  have hsub : ∀ c ∈ ("$VERSION_PATH" : String).data,
      c ∈ ("$PRE_VERSION_PATH" : String).data := by decide
  have h1 : occursIn ('$' :: ("PRE_VERSION_PATH" : String).data)
      (py_replace text "$PRE_VERSION_PATH" vPre).data = false :=
    occursIn_py_replace_false text "$PRE_VERSION_PATH" vPre
      ("PRE_VERSION_PATH").data ("PRE_VERSION_PATH").data hdata_pre
      hPreNe hPreD (hdata_pre ▸ hPreH) (Or.inl hdata_pre.symm)
  have h2 : occursIn ('$' :: ("PRE_VERSION_PATH" : String).data)
      (py_replace (py_replace text "$PRE_VERSION_PATH" vPre)
        "$USE_PKG_PATH" vU).data = false :=
    occursIn_py_replace_false _ "$USE_PKG_PATH" vU
      ("USE_PKG_PATH").data ("PRE_VERSION_PATH").data hdata_use
      hUNe hUD (hdata_pre ▸ hUH) (Or.inr h1)
  have h3 : occursIn ('$' :: ("PRE_VERSION_PATH" : String).data)
      (substitute_longer_keys text vU vP vPre).data = false :=
    occursIn_py_replace_false _ "$VERSION_PATH" vP
      ("VERSION_PATH").data ("PRE_VERSION_PATH").data hdata_vp
      hPNe hPD (hdata_pre ▸ hPH) (Or.inr h2)
  have hvhVP : vP.data.headI ∉ '$' :: ("VERSION_PATH" : String).data := by
    rw [← hdata_vp]
    intro hmem
    exact hPH (hsub _ hmem)
  have g3 : occursIn ('$' :: ("VERSION_PATH" : String).data)
      (substitute_longer_keys text vU vP vPre).data = false :=
    occursIn_py_replace_false _ "$VERSION_PATH" vP
      ("VERSION_PATH").data ("VERSION_PATH").data hdata_vp
      hPNe hPD hvhVP (Or.inl hdata_vp.symm)
  refine ⟨rfl, rfl, ?_, ?_⟩
  · rw [hdata_vp]
    exact g3
  · rw [hdata_pre]
    exact h3

/-- Witness for C8 with realistic substitution values: after the three
longer keys are substituted, no `$VERSION_PATH` occurrence is left for
the final `$VERSION` replacement to damage. -/
theorem substitution_longest_first_protects_witness :
    occursIn ("$VERSION_PATH").data
      (substitute_longer_keys "cd $VERSION_PATH; echo $VERSION"
        "/opt/app" "/opt/app/3.6" "/opt").data = false :=
  (substitution_longest_first_protects "cd $VERSION_PATH; echo $VERSION"
    "3.6" "/opt/app" "/opt/app/3.6" "/opt"
    ⟨by decide, by decide, by decide⟩ ⟨by decide, by decide, by decide⟩
    ⟨by decide, by decide, by decide⟩).2.2.1

/-! ### C4: what the activation path merge actually computes -/

/-- C4 (counterexample): with live `PATH=/a:/b` and prepend `/b`, the code
keeps the live list intact and drops the already-live prepend (emitting
`export PATH=/a:/b`), while the claim's formula would move `/b` to the
front (`export PATH=/b:/a`): the code filters the prepends against the
live list, not the live list against the prepends. -/
theorem format_paths_merge_counterexample :
    format_path_var_for_shell [] "PATH" ["/b"] [] [("PATH", "/a:/b")] ≠
      "export PATH=" ++ String.intercalate ":"
        (spec_merge_path_var ["/b"] [] (split_on_colon "/a:/b")) := by
  decide

/-- The merge `format_paths_for_shell` actually performs, as a formula:
substituted prepends not already live, then the live entries unchanged,
then substituted postpends not already live. -/
def amended_merge_path_var (subVars : List (String × String))
    (pathVar : String) (prepends postpends : List String)
    (envVars : List (String × String)) : List String :=
  let current := split_on_colon ((alookup pathVar envVars).getD "")
  (prepends.map (fun p => apply_substitutions p subVars)).filter
      (fun p => decide (p ∉ current)) ++
    current ++
    (postpends.map (fun p => apply_substitutions p subVars)).filter
      (fun p => decide (p ∉ current))

/-- C4 (amended): per path variable, the emitted directive is
`export VAR=` followed by the substituted prepend entries not already
present in the live list, then all live entries unchanged and in order
(they form a contiguous block of the merged value), then the substituted
postpend entries not already present in the live list; entries already
live are dropped from prepends/postpends rather than the live portion
being filtered, and a postpend duplicating a prepend is not dropped. -/
theorem format_paths_merge_amended (subVars : List (String × String))
    (pathVar : String) (prepends postpends : List String)
    (envVars : List (String × String)) :
    format_path_var_for_shell subVars pathVar prepends postpends envVars =
      "export " ++ pathVar ++ "=" ++ String.intercalate ":"
        (amended_merge_path_var subVars pathVar prepends postpends envVars) ∧
    split_on_colon ((alookup pathVar envVars).getD "") <:+:
      amended_merge_path_var subVars pathVar prepends postpends envVars := by
  refine ⟨rfl, ?_⟩
  exact ⟨(prepends.map (fun p => apply_substitutions p subVars)).filter
      (fun p => decide (p ∉ split_on_colon ((alookup pathVar envVars).getD ""))),
    (postpends.map (fun p => apply_substitutions p subVars)).filter
      (fun p => decide (p ∉ split_on_colon ((alookup pathVar envVars).getD ""))),
    rfl⟩

/-! ### The historical file-history variant of `src/use.py`

`use()` (src/use.py:1305-1451) and the `unuse` chain it invokes for
implicit re-activation.  History records are the configparser sections of
the history file, embedded at the parsed level. -/

/-- One section of the history file written by `write_history`
(src/use.py:1253-1270).  `existingPathVars` values are the raw live
strings (`get_matching_paths` stores `os.environ[path_var]` verbatim). -/
structure HistRecord where
  branch : String
  name : String
  timestamp : Nat
  newAliases : List (String × String) := []
  newEnvVars : List (String × String) := []
  newPathPrepends : List (String × List String) := []
  newPathPostpends : List (String × List String) := []
  unuseScripts : List String := []
  unuseCmds : List String := []
  existingAliases : List (String × String) := []
  existingEnvVars : List (String × String) := []
  existingPathVars : List (String × String) := []
  deriving DecidableEq, Repr

/-- Python `s.split(":")` with the escaped-colon dance of
src/use.py:1746-1749: a `\:` pair survives as literal text instead of
separating. -/
def splitEscapedColon : List Char → List (List Char)
  | [] => [[]]
  | '\\' :: ':' :: rest =>
    match splitEscapedColon rest with
    | [] => [['\\', ':']]
    | g :: gs => ('\\' :: ':' :: g) :: gs
  | ':' :: rest => [] :: splitEscapedColon rest
  | c :: rest =>
    match splitEscapedColon rest with
    | [] => [[c]]
    | g :: gs => (c :: g) :: gs

/-- String-level wrapper of `splitEscapedColon`. -/
def split_escaped_colon (s : String) : List String :=
  (splitEscapedColon s.data).map (fun l => String.mk l)

/-- Embeds `unuse_aliases` from `src/use.py:1492-1574`.  The
subsequent-use check of lines 1556-1563 is dead code: its `continue`
binds to the inner `for other_section` loop and never skips the outer
iteration, so nothing of it appears in the emitted directives. -/
def use_py_unuse_aliases (rec : HistRecord)
    (shellAliases : List (String × String)) : List Directive :=
  rec.newAliases.filterMap (fun kv =>
    match alookup kv.1 shellAliases with
    | none => none
    | some cur =>
      if cur ≠ kv.2 then none
      else
        match alookup kv.1 rec.existingAliases with
        | some ov => some (.setAlias kv.1 ov)
        | none => some (.unalias kv.1))

/-- Embeds `unuse_env_vars` from `src/use.py:1578-1653`; the
subsequent-use check of lines 1634-1642 is dead code exactly as in
`use_py_unuse_aliases` (it even reads the other section's `new_aliases`
instead of its env vars). -/
def use_py_unuse_env_vars (rec : HistRecord)
    (envVars : List (String × String)) : List Directive :=
  rec.newEnvVars.filterMap (fun kv =>
    match alookup kv.1 envVars with
    | none => none
    | some cur =>
      if cur ≠ kv.2 then none
      else
        match alookup kv.1 rec.existingEnvVars with
        | some ov => some (.setEnvVar kv.1 ov)
        | none => some (.unsetEnvVar kv.1))

/-- Embeds `unuse_paths` from `src/use.py:1657-1764`, bugs included: the
pre-activation filter (lines 1700-1707) is a *substring* test against the
stored raw value; the subsequent-branch filter (lines 1725-1732) tests
`actual_path in unuse_paths_dict[path_var]` — the candidate list itself —
so any subsequent section touching the same variable empties the whole
candidate list; and the unset branch (line 1762) replaces the accumulated
command list instead of appending. -/
def use_py_unuse_paths (hist : List HistRecord) (rec : HistRecord)
    (envVars : List (String × String)) : List Directive :=
  let d0 := merge_dict_of_lists rec.newPathPrepends rec.newPathPostpends
  let d1 := d0.map (fun kv =>
    match alookup kv.1 rec.existingPathVars with
    | some s => (kv.1, kv.2.filter (fun p => !(strContains s p)))
    | none => kv)
  let d2 := d1.map (fun kv =>
    if (hist.filter (fun o =>
          decide (o.branch ≠ rec.branch ∧ o.timestamp > rec.timestamp))).any
        (fun o => (alookup kv.1 (merge_dict_of_lists o.newPathPrepends
          o.newPathPostpends)).isSome)
    then (kv.1, ([] : List String)) else kv)
  d2.foldl (fun (acc : List Directive) (kv : String × List String) =>
    let shellPaths : List String :=
      split_escaped_colon ((alookup kv.1 envVars).getD "")
    let shellPaths : List String :=
      kv.2.foldl (fun sp p => sp.erase p) shellPaths
    if 0 < shellPaths.length then acc ++ [.setPathVar kv.1 shellPaths]
    else [.unsetEnvVar kv.1]) ([] : List Directive)

/-- Embeds `unuse` from `src/use.py:1768-1883`: find the first history
section whose stored package name matches (no record → silent no-op),
emit path, alias, env-var undo directives plus the stored unuse scripts
and commands, and remove the section from the history. -/
def use_py_unuse (hist : List HistRecord)
    (envVars shellAliases : List (String × String)) (pkgName : String) :
    List Directive × List HistRecord :=
  match hist.find? (fun r => r.name == pkgName) with
  | none => ([], hist)
  | some rec =>
    (use_py_unuse_paths hist rec envVars ++
      use_py_unuse_aliases rec shellAliases ++
      use_py_unuse_env_vars rec envVars ++
      rec.unuseScripts.map .runCmd ++
      rec.unuseCmds.map .runCmd,
     hist.filter (fun r => decide (r.branch ≠ rec.branch)))

/-- Embeds `get_matching_aliases` (src/use.py:1098-1117): the live aliases
whose names the package is about to overwrite, with their live values. -/
def get_matching_aliases (newAliases existingAliases :
    List (String × String)) : List (String × String) :=
  existingAliases.filter (fun kv => (alookup kv.1 newAliases).isSome)

/-- Embeds `get_matching_env_vars` (src/use.py:1121-1145): reads each
claimed env var from `os.environ`; only truthy (nonempty) live values are
recorded. -/
def get_matching_env_vars (newEnvVars envVars : List (String × String)) :
    List (String × String) :=
  newEnvVars.filterMap (fun kv =>
    match alookup kv.1 envVars with
    | some v => if v ≠ "" then some (kv.1, v) else none
    | none => none)

/-- Embeds `get_matching_paths` (src/use.py:1149-1176): the raw live
value of every claimed path variable (`list(set(...))` key order is
unspecified in Python; first-occurrence order is used here). -/
def get_matching_paths (prepends postpends : List (String × List String))
    (envVars : List (String × String)) : List (String × String) :=
  (dedup_first (prepends.map Prod.fst ++ postpends.map Prod.fst)).filterMap
    (fun v =>
      match alookup v envVars with
      | some s => some (v, s)
      | none => none)

/-- The package-definition fields consumed by the history slice of
`use()`. -/
structure UsePkg where
  branch : String
  name : String
  aliases : List (String × String) := []
  envVars : List (String × String) := []
  pathPrepends : List (String × List String) := []
  pathPostpends : List (String × List String) := []
  unuseScripts : List String := []
  unuseCmds : List String := []
  deriving DecidableEq, Repr

/-- Embeds the history slice of `use()` from `src/use.py`: the implicit
unuse of a prior record for the same branch (lines 1346-1361 — note line
1360 *reassigns* `use_pkg_name` to the prior record's stored name, and
that reassigned variable is what `write_history` later stores as the new
record's `name`), then the pre-activation capture (lines 1422-1432) —
read from the invocation-time environment snapshot and alias list, which
the unuse directives (printed for the shell to evaluate after the
process exits) never modify — then `write_history` (lines 1245-1274:
`sys.exit` when the branch section still exists, modelled as `none`;
timestamp from the clock argument, `int(time.time())` in the source).
Returns the emitted unuse directives and the new history. -/
def use_py_use_history (hist : List HistRecord)
    (envVars shellAliases : List (String × String)) (pkg : UsePkg)
    (clock : Nat) : Option (List Directive × List HistRecord) :=
  let step : String × List Directive × List HistRecord :=
    match hist.find? (fun r => r.branch == pkg.branch) with
    | some prior =>
      (prior.name, use_py_unuse hist envVars shellAliases prior.name)
    | none => (pkg.name, [], hist)
  if (step.2.2.find? (fun r => r.branch == pkg.branch)).isSome then none
  else
    let newRec : HistRecord :=
      { branch := pkg.branch
        name := step.1
        timestamp := clock
        newAliases := pkg.aliases
        newEnvVars := pkg.envVars
        newPathPrepends := pkg.pathPrepends
        newPathPostpends := pkg.pathPostpends
        unuseScripts := pkg.unuseScripts
        unuseCmds := pkg.unuseCmds
        existingAliases := get_matching_aliases pkg.aliases shellAliases
        existingEnvVars := get_matching_env_vars pkg.envVars envVars
        existingPathVars :=
          get_matching_paths pkg.pathPrepends pkg.pathPostpends envVars }
    some (step.2.1, step.2.2 ++ [newRec])

/-- Replacing or appending an entry of the environment table. -/
def set_env_assoc (env : List (String × String)) (n v : String) :
    List (String × String) :=
  if (alookup n env).isSome then
    env.map (fun kv => if kv.1 = n then (n, v) else kv)
  else env ++ [(n, v)]

/-- How the shell's env-var table evolves when it evaluates a directive
(the spec's Live Shell State oracle; alias directives and raw commands do
not touch the env-var table). -/
def applyDirective (env : List (String × String)) :
    Directive → List (String × String)
  | .setEnvVar n v => set_env_assoc env n v
  | .unsetEnvVar n => env.filter (fun kv => decide (kv.1 ≠ n))
  | .setPathVar n vs => set_env_assoc env n (String.intercalate ":" vs)
  | _ => env

/-- Folding a directive list over the live env-var table. -/
def applyDirectives (env : List (String × String)) (ds : List Directive) :
    List (String × String) :=
  ds.foldl applyDirective env

/-! ### C5: implicit re-activation and the pre-activation capture -/

/-- Prior ledger for the C5 counterexample: branch `b` set `V=v1` over a
pre-activation value `v0`. -/
def histC5 : List HistRecord :=
  [{ branch := "b", name := "p", timestamp := 1,
     newEnvVars := [("V", "v1")], existingEnvVars := [("V", "v0")] }]

/-- Re-activation of branch `b`, now setting `V=v2`. -/
def pkgC5 : UsePkg := { branch := "b", name := "p", envVars := [("V", "v2")] }

/-- C5 (counterexample): re-activating branch `b` runs the implicit unuse
first (it emits the restore `V=v0` and removes the old record), but the
pre-activation value then captured for the new record is read from the
invocation-time environment snapshot, still `v1` — not `v0`, the value
the live shell holds once it has evaluated the emitted unwind directive.
The stored snapshot therefore reflects the stale prior activation, not
the post-unwind state the claim asserts. -/
theorem use_py_capture_is_pre_unwind_counterexample :
    use_py_use_history histC5 [("V", "v1")] [] pkgC5 2 =
      some ([Directive.setEnvVar "V" "v0"],
        [{ branch := "b", name := "p", timestamp := 2,
           newEnvVars := [("V", "v2")],
           existingEnvVars := [("V", "v1")] }]) ∧
    applyDirectives [("V", "v1")] [Directive.setEnvVar "V" "v0"] =
      [("V", "v0")] ∧
    ("v1" : String) ≠ "v0" :=
  ⟨rfl, rfl, by decide⟩

/-- C5 (amended): when `use()` succeeds, the prior record for the branch
(if any) has been removed by the implicit unuse before the new record is
appended — the resulting history is the old one minus the branch's
record, plus exactly one new record, whose stored package name is the
*prior* record's stored name when a prior record existed (src/use.py:1360
reassigns `use_pkg_name` before `write_history` stores it) and the
requested package's name otherwise — but the pre-activation values
stored in that new record are computed from the unchanged
invocation-time environment snapshot and alias list (`os.environ` /
stdin), which the emitted unwind directives have not touched. -/
theorem use_py_use_history_removes_then_captures_from_snapshot
    (hist : List HistRecord) (envVars shellAliases : List (String × String))
    (pkg : UsePkg) (clock : Nat) (dirs : List Directive)
    (hist2 : List HistRecord)
    (h : use_py_use_history hist envVars shellAliases pkg clock =
      some (dirs, hist2)) :
    hist2 = hist.filter (fun r => decide (r.branch ≠ pkg.branch)) ++
      [{ branch := pkg.branch,
         name := match hist.find? (fun r => r.branch == pkg.branch) with
                 | some prior => prior.name
                 | none => pkg.name,
         timestamp := clock,
         newAliases := pkg.aliases, newEnvVars := pkg.envVars,
         newPathPrepends := pkg.pathPrepends,
         newPathPostpends := pkg.pathPostpends,
         unuseScripts := pkg.unuseScripts, unuseCmds := pkg.unuseCmds,
         existingAliases := get_matching_aliases pkg.aliases shellAliases,
         existingEnvVars := get_matching_env_vars pkg.envVars envVars,
         existingPathVars := get_matching_paths pkg.pathPrepends
           pkg.pathPostpends envVars }] := by
  cases hfind : hist.find? (fun r => r.branch == pkg.branch) with
  | none =>
    simp only [hfind]
    simp only [use_py_use_history, hfind, Option.isSome_none,
      Bool.false_eq_true, if_false, Option.some.injEq, Prod.mk.injEq] at h
    obtain ⟨_, hh⟩ := h
    rw [← hh]
    have hall : ∀ r ∈ hist, r.branch ≠ pkg.branch := by
      intro r hr
      have hnone := List.find?_eq_none.mp hfind r hr
      simpa using hnone
    have hfil : hist.filter (fun r => decide (r.branch ≠ pkg.branch)) =
        hist := by
      apply List.filter_eq_self.mpr
      intro r hr
      simpa using hall r hr
    rw [hfil]
  | some prior =>
    simp only [hfind]
    have hmem : prior ∈ hist := List.mem_of_find?_eq_some hfind
    have hpb : prior.branch = pkg.branch := by
      have hp := List.find?_some hfind
      simpa using hp
    cases hr0 : hist.find? (fun r => r.name == prior.name) with
    | none =>
      exfalso
      have hnone := List.find?_eq_none.mp hr0 prior hmem
      simp at hnone
    | some r0 =>
      simp only [use_py_use_history, use_py_unuse, hfind, hr0] at h
      by_cases hg : ((hist.filter (fun r =>
          decide (r.branch ≠ r0.branch))).find?
            (fun r => r.branch == pkg.branch)).isSome
      · rw [if_pos hg] at h
        exact absurd h (by simp)
      · rw [if_neg hg] at h
        simp only [Option.some.injEq, Prod.mk.injEq] at h
        obtain ⟨_, hh⟩ := h
        have hr0b : r0.branch = pkg.branch := by
          by_contra hne
          apply hg
          apply List.find?_isSome.mpr
          refine ⟨prior, List.mem_filter.mpr ⟨hmem, ?_⟩, by simp [hpb]⟩
          simp only [decide_eq_true_eq, hpb]
          exact fun hEq => hne (by rw [hEq])
        rw [← hh, hr0b]

/-- Prior ledger for the C5 witness: the branch was first activated under
package name `p-old`. -/
def histC5w : List HistRecord :=
  [{ branch := "b", name := "p-old", timestamp := 1,
     newEnvVars := [("V", "v1")], existingEnvVars := [("V", "v0")] }]

/-- Re-activation of the same branch under the different package name
`p-new`. -/
def pkgC5w : UsePkg :=
  { branch := "b", name := "p-new", envVars := [("V", "v2")] }

/-- Witness for the amended C5 at a concrete re-activation under a
different package name: the single resulting record carries the prior
record's stored name `p-old` (src/use.py:1360), and its pre-activation
value for `V` is the snapshot value `v1`. -/
theorem use_py_use_history_removes_then_captures_witness :
    ([{ branch := "b", name := "p-old", timestamp := 2,
        newEnvVars := [("V", "v2")], existingEnvVars := [("V", "v1")] }] :
      List HistRecord) =
      histC5w.filter (fun r => decide (r.branch ≠ pkgC5w.branch)) ++
        [{ branch := pkgC5w.branch,
           name := match histC5w.find? (fun r =>
                       r.branch == pkgC5w.branch) with
                   | some prior => prior.name
                   | none => pkgC5w.name,
           timestamp := 2,
           newAliases := pkgC5w.aliases, newEnvVars := pkgC5w.envVars,
           newPathPrepends := pkgC5w.pathPrepends,
           newPathPostpends := pkgC5w.pathPostpends,
           unuseScripts := pkgC5w.unuseScripts,
           unuseCmds := pkgC5w.unuseCmds,
           existingAliases := get_matching_aliases pkgC5w.aliases [],
           existingEnvVars :=
             get_matching_env_vars pkgC5w.envVars [("V", "v1")],
           existingPathVars := get_matching_paths pkgC5w.pathPrepends
             pkgC5w.pathPostpends [("V", "v1")] }] :=
  use_py_use_history_removes_then_captures_from_snapshot histC5w
    [("V", "v1")] [] pkgC5w 2 [Directive.setEnvVar "V" "v0"] _ (by decide)
